import Mathlib

/-!
Verification of the derive-`From` code generator (`src/from.rs`).

The Rust source is shallowly embedded: the `syn` data model (`MacroInput`,
`Body`, `VariantData`, `Field`, `Variant`) becomes Lean structures and
inductives; each `quote!` block of the generator becomes a constructor of
`GenImpl` carrying exactly the data interpolated into it; a `Tokens` value
(the concatenation of emitted blocks) becomes `List GenImpl`, with a textual
rendering `renderTokens`; the Rust `panic!` (and the `Option::unwrap` panic)
become the `Except.error` branch of `expand`.  On top of the syntactic
embedding, `applyImpl` gives the runtime meaning of one generated
`impl From` block, so that claims about what the generated conversion does
with values can be stated and proved.
-/

namespace DeriveFrom

/-- Embeds `syn::Ident`: identifiers, compared by their text. -/
abbrev Ident := String

/-- Embeds `syn::Ty`: a type reference, opaque to the generator and compared
only structurally (the generator keys a `HashMap` on the type's syntax tree,
which equality of the canonical text models). -/
abbrev Ty := String

/-- Embeds `syn::Field`: an optional name (`none` for positional fields) plus
a type. -/
structure Field where
  ident : Option Ident
  ty : Ty
deriving DecidableEq, Repr

/-- Embeds `syn::VariantData`: the payload of a struct body or of an enum
variant: named fields, positional (tuple) fields, or no data. -/
inductive VariantData where
  | Struct (fields : List Field)
  | Tuple (fields : List Field)
  | Unit
deriving DecidableEq, Repr

/-- Embeds `syn::Variant`: a name plus a payload. -/
structure Variant where
  ident : Ident
  data : VariantData
deriving DecidableEq, Repr

/-- Embeds `syn::Body`: a struct body or an enum body. -/
inductive Body where
  | Struct (data : VariantData)
  | Enum (variants : List Variant)
deriving DecidableEq, Repr

/-- Embeds `syn::MacroInput`: the type definition handed to the generator. -/
structure MacroInput where
  ident : Ident
  body : Body
deriving DecidableEq, Repr

/-- Modelled from the spec: `utils::number_idents` lives in `utils.rs`, which
is not among the given sources.  Per the spec's purely positional mapping
(tuple element `i` goes to the field at declaration position `i`), it yields
the projection identifiers `0`, `1`, …, `count-1` in declaration order; they
are spliced as the tuple projections `original.0 … original.(count-1)`. -/
def number_idents (count : Nat) : List Ident :=
  (List.range count).map toString

/-- Embeds the output side of the generator: each constructor records one
`quote!` block of `from.rs` together with exactly the data interpolated into
it.  A Rust `Tokens` value, i.e. a concatenation of such blocks, is a
`List GenImpl`. -/
inductive GenImpl where
  | newtypeFrom (input_type : Ident) (original_type : Ty)
  | newtypeStructFrom (input_type : Ident) (field_name : Option Ident) (field_ty : Ty)
  | tupleFrom (input_type : Ident) (types : List Ty)
  | structFrom (input_type : Ident) (types : List Ty) (field_names : List Ident)
  | enumVariantFrom (enum_ident : Ident) (old_type : Ty) (variant_ident : Ident)
deriving DecidableEq, Repr

/-- Describes the source type of a generated `impl From<S> for T`: either a
single type or a tuple of types. -/
inductive FromTy where
  | single (ty : Ty)
  | tupleTy (tys : List Ty)
deriving DecidableEq, Repr

/-- Gives the source type `S` of the generated `impl From<S> for T`. -/
def srcTy : GenImpl → FromTy
  | .newtypeFrom _ ty => .single ty
  | .newtypeStructFrom _ _ ty => .single ty
  | .tupleFrom _ tys => .tupleTy tys
  | .structFrom _ tys _ => .tupleTy tys
  | .enumVariantFrom _ ty _ => .single ty

/-- Gives the target type `T` of the generated `impl From<S> for T`. -/
def targetTy : GenImpl → Ident
  | .newtypeFrom t _ => t
  | .newtypeStructFrom t _ _ => t
  | .tupleFrom t _ => t
  | .structFrom t _ _ => t
  | .enumVariantFrom e _ _ => e

/-- Embeds `newtype_from`: `impl From<T> for I` wrapping the value in the
single positional slot. -/
def newtype_from (input_type : Ident) (original_type : Ty) : GenImpl :=
  .newtypeFrom input_type original_type

/-- Embeds `newtype_struct_from`: `impl From<T> for I` assigning the value to
the single named field. -/
def newtype_struct_from (input_type : Ident) (field : Field) : GenImpl :=
  .newtypeStructFrom input_type field.ident field.ty

/-- Embeds `tuple_from`: `impl From<(T0, …, Tn-1)> for I` assigning tuple
projection `i` to positional field `i`. -/
def tuple_from (input_type : Ident) (fields : List Field) : GenImpl :=
  .tupleFrom input_type (fields.map Field.ty)

/-- Embeds the collection `fields.iter().map(|f| f.ident.as_ref().unwrap())`
inside `struct_from`: the declared field names in declaration order, where an
unnamed field makes the `unwrap` panic (`none` here). -/
def unwrapIdents : List Field → Option (List Ident)
  | [] => some []
  | f :: rest =>
    match f.ident, unwrapIdents rest with
    | some nm, some nms => some (nm :: nms)
    | _, _ => none

/-- Embeds `struct_from`: `impl From<(T0, …, Tn-1)> for I` assigning tuple
projection `i` to the field declared at position `i`; the `unwrap` panic on a
nameless field is the error branch. -/
def struct_from (input_type : Ident) (fields : List Field) : Except String GenImpl :=
  match unwrapIdents fields with
  | some field_names =>
      .ok (.structFrom input_type (fields.map Field.ty) field_names)
  | none => .error "called Option::unwrap() on a None value"

/-- Embeds the body of the first loop of `enum_from`: a variant whose payload
is `VariantData::Tuple` with exactly one field contributes the pair
(variant ident, payload type); every other variant contributes nothing. -/
def candOfVariant (v : Variant) : Option (Ident × Ty) :=
  match v.data with
  | VariantData.Tuple [f] => some (v.ident, f.ty)
  | _ => none

/-- Embeds the first loop of `enum_from`: collect, in declaration order, the
pairs pushed onto the `idents` and `types` vectors. -/
def enumCandidates (variants : List Variant) : List (Ident × Ty) :=
  variants.filterMap candOfVariant

/-- Embeds `enum_from`.  The `HashMap` `type_counts` maps each collected type
to the number of times the first loop ran `*counter += 1` for it, i.e. to its
number of occurrences among the collected candidate types, so looking a type
up in the map is `List.count` over those types.  The second loop walks
`idents.iter().zip(types)` — exactly the candidate pairs in declaration
order — and appends one block per pair whose type count is `1`. -/
def enum_from (enum_ident : Ident) (variants : List Variant) : List GenImpl :=
  let cands := enumCandidates variants
  let types := cands.map Prod.snd
  cands.filterMap fun p =>
    if types.count p.2 = 1 then
      some (.enumVariantFrom enum_ident p.2 p.1)
    else
      -- If more than one newtype is present don't add automatic From,
      -- since it is ambiguous.
      none

/-- Embeds the `panic!` message of `expand`'s catch-all arm. -/
def derivePanicMsg : String := "Only tuple structs and enums can derive From"

/-- Embeds `expand`: dispatch on the body shape.  The second (`&str`)
argument is ignored by the source (`_: &str`); `panic!` becomes the error
branch.  The `fields.len() == 1` tests of the source are the one-element list
patterns. -/
def expand (input : MacroInput) (_ : String) : Except String (List GenImpl) :=
  let input_type := input.ident
  match input.body with
  | .Struct (.Tuple [f]) => .ok [newtype_from input_type f.ty]
  | .Struct (.Tuple fields) => .ok [tuple_from input_type fields]
  | .Struct (.Struct [f]) => .ok [newtype_struct_from input_type f]
  | .Struct (.Struct fields) => (struct_from input_type fields).map fun i => [i]
  | .Enum variants => .ok (enum_from input_type variants)
  | .Struct .Unit => .error derivePanicMsg

/-- Tells whether an embedded generator result is the panic outcome. -/
def isErr {ε α : Type} : Except ε α → Bool
  | .error _ => true
  | .ok _ => false

/-- Renders the tuple source type `(#(#types),*)`. -/
def renderTupleTy (tys : List Ty) : String :=
  "(" ++ String.intercalate ", " tys ++ ")"

/-- Renders one generated block as source text, mirroring the corresponding
`quote!` template of `from.rs`. -/
def renderImpl : GenImpl → String
  | .newtypeFrom t ty =>
      "impl ::std::convert::From<" ++ ty ++ "> for " ++ t ++
        " \x7b fn from(original: " ++ ty ++ ") -> " ++ t ++ " \x7b " ++ t ++
        "(original) \x7d \x7d"
  | .newtypeStructFrom t nm ty =>
      "impl ::std::convert::From<" ++ ty ++ "> for " ++ t ++
        " \x7b fn from(original: " ++ ty ++ ") -> " ++ t ++ " \x7b " ++ t ++
        "\x7b" ++ nm.getD "" ++ ": original\x7d \x7d \x7d"
  | .tupleFrom t tys =>
      "impl ::std::convert::From<" ++ renderTupleTy tys ++ "> for " ++ t ++
        " \x7b fn from(original: " ++ renderTupleTy tys ++ ") -> " ++ t ++
        " \x7b " ++ t ++ "(" ++
        String.intercalate ", "
          ((number_idents tys.length).map fun i => "original." ++ i) ++
        ") \x7d \x7d"
  | .structFrom t tys names =>
      "impl ::std::convert::From<" ++ renderTupleTy tys ++ "> for " ++ t ++
        " \x7b fn from(original: " ++ renderTupleTy tys ++ ") -> " ++ t ++
        " \x7b " ++ t ++ "\x7b" ++
        String.intercalate ", "
          ((names.zip (number_idents names.length)).map
            fun p => p.1 ++ ": original." ++ p.2) ++
        "\x7d \x7d \x7d"
  | .enumVariantFrom e ty v =>
      "impl ::std::convert::From<" ++ ty ++ "> for " ++ e ++
        " \x7b fn from(original: " ++ ty ++ ") -> " ++ e ++ " \x7b " ++ e ++
        "::" ++ v ++ "(original) \x7d \x7d"

/-- Renders a whole `Tokens` value: the concatenation of the emitted blocks. -/
def renderTokens (impls : List GenImpl) : String :=
  String.join (impls.map renderImpl)

/-- Models Rust runtime values, for the semantics of the generated code:
opaque base values tagged with their type's text, tuples, tuple-struct and
named-struct instances, and enum values. -/
inductive RustValue where
  | base (ty : Ty) (n : Nat)
  | tuple (elems : List RustValue)
  | tupleStruct (name : Ident) (elems : List RustValue)
  | namedStruct (name : Ident) (fields : List (Ident × RustValue))
  | enumVal (enumName : Ident) (variant : Ident) (payload : List RustValue)

/-- Gives the semantics of one generated block: what its `from` function does
to an argument value.  An argument whose shape the generated code would not
even type-check against yields `none`.  For the tuple emitters the argument
is an n-tuple whose projections `original.0 … original.(n-1)` are, in order,
exactly its element list, so projecting all of them in order yields the
element list itself. -/
def applyImpl : GenImpl → RustValue → Option RustValue
  | .newtypeFrom t _, v => some (.tupleStruct t [v])
  | .newtypeStructFrom t (some nm) _, v => some (.namedStruct t [(nm, v)])
  | .newtypeStructFrom _ none _, _ => none
  | .tupleFrom t tys, .tuple es =>
      if es.length = tys.length then some (.tupleStruct t es) else none
  | .tupleFrom _ _, _ => none
  | .structFrom t tys names, .tuple es =>
      if es.length = tys.length then some (.namedStruct t (names.zip es)) else none
  | .structFrom _ _ _, _ => none
  | .enumVariantFrom e _ variant, v => some (.enumVal e variant [v])

/-- Extracts the sole positional slot of a newtype instance. -/
def unwrapNewtype : RustValue → Option RustValue
  | .tupleStruct _ [v] => some v
  | _ => none

/-- Decides whether `pat` occurs at the head of `s`. -/
def beginsWith : List Char → List Char → Bool
  | [], _ => true
  | _ :: _, [] => false
  | a :: as, b :: bs => a == b && beginsWith as bs

/-- Decides whether `pat` occurs anywhere inside the second list. -/
def hasSubChars (pat : List Char) : List Char → Bool
  | [] => beginsWith pat []
  | c :: rest => beginsWith pat (c :: rest) || hasSubChars pat rest

/-- Decides whether the diagnostic `msg` mentions `name` as a substring. -/
def mentionsName (msg name : String) : Bool :=
  hasSubChars name.data msg.data

/-- Collecting the field names succeeds with a list of the same length as the
field list. -/
theorem unwrapIdents_length {l : List Field} {ns : List Ident}
    (h : unwrapIdents l = some ns) : ns.length = l.length := by
  induction l generalizing ns with
  | nil =>
    simp only [unwrapIdents, Option.some.injEq] at h
    subst h
    rfl
  | cons f rest ih =>
    rcases hf : f.ident with _ | nm <;>
      rcases hr : unwrapIdents rest with _ | nms <;>
        simp [unwrapIdents, hf, hr] at h
    subst h
    simp [ih hr]

/-- Characterises which variants contribute a candidate pair. -/
theorem candOfVariant_eq_some {v : Variant} {p : Ident × Ty} :
    candOfVariant v = some p ↔
      ∃ f, v.data = VariantData.Tuple [f] ∧ p = (v.ident, f.ty) := by
  rcases v with ⟨vi, vd⟩
  cases vd with
  | Struct fs => simp [candOfVariant]
  | Unit => simp [candOfVariant]
  | Tuple fs =>
    rcases fs with _ | ⟨f, _ | ⟨g, rest⟩⟩
    · simp [candOfVariant]
    · simp [candOfVariant, eq_comm]
    · simp [candOfVariant]

/-- Characterises which variants contribute no candidate pair. -/
theorem candOfVariant_eq_none {v : Variant} :
    candOfVariant v = none ↔ ∀ f, v.data ≠ VariantData.Tuple [f] := by
  rcases v with ⟨vi, vd⟩
  cases vd with
  | Struct fs => simp [candOfVariant]
  | Unit => simp [candOfVariant]
  | Tuple fs =>
    rcases fs with _ | ⟨f, _ | ⟨g, rest⟩⟩
    · simp [candOfVariant]
    · simp only [candOfVariant]
      constructor
      · intro h
        exact absurd h (by simp)
      · intro h
        exact absurd rfl (h f)
    · simp [candOfVariant]

/-- Membership in the candidate list. -/
theorem mem_enumCandidates {vs : List Variant} {p : Ident × Ty} :
    p ∈ enumCandidates vs ↔
      ∃ v ∈ vs, ∃ f, v.data = VariantData.Tuple [f] ∧ p = (v.ident, f.ty) := by
  simp [enumCandidates, List.mem_filterMap, candOfVariant_eq_some]

/-- Membership in the output of the union resolver. -/
theorem mem_enum_from {e : Ident} {vs : List Variant} {impl : GenImpl} :
    impl ∈ enum_from e vs ↔
      ∃ p ∈ enumCandidates vs,
        ((enumCandidates vs).map Prod.snd).count p.2 = 1 ∧
          impl = GenImpl.enumVariantFrom e p.2 p.1 := by
  simp only [enum_from, List.mem_filterMap]
  constructor
  · rintro ⟨p, hp, hif⟩
    by_cases hc : ((enumCandidates vs).map Prod.snd).count p.2 = 1
    · rw [if_pos hc] at hif
      exact ⟨p, hp, hc, (Option.some.inj hif).symm⟩
    · rw [if_neg hc] at hif
      exact absurd hif (by simp)
  · rintro ⟨p, hp, hc, rfl⟩
    exact ⟨p, hp, by rw [if_pos hc]⟩

/-- C7: for a record with exactly one positional field of type `T`, the
generated conversion applied to a value `v` of `T` yields an instance equal to
constructing the type with `v` in its sole slot, and unwrapping then
rewrapping is the identity (round-trip). -/
theorem newtype_from_roundtrip (name : Ident) (f : Field) (ctx : String) :
    expand ⟨name, Body.Struct (VariantData.Tuple [f])⟩ ctx
      = .ok [GenImpl.newtypeFrom name f.ty]
    ∧ srcTy (GenImpl.newtypeFrom name f.ty) = FromTy.single f.ty
    ∧ ∀ v : RustValue,
        applyImpl (GenImpl.newtypeFrom name f.ty) v
          = some (RustValue.tupleStruct name [v])
        ∧ (applyImpl (GenImpl.newtypeFrom name f.ty) v).bind unwrapNewtype
          = some v
        ∧ (unwrapNewtype (RustValue.tupleStruct name [v])).bind
            (applyImpl (GenImpl.newtypeFrom name f.ty))
          = some (RustValue.tupleStruct name [v]) :=
  ⟨rfl, rfl, fun _ => ⟨rfl, rfl, rfl⟩⟩

/-- C9: the generator is a deterministic pure function of the type
definition; the auxiliary context string has no influence on the result, so
two invocations with different context strings produce identical output. -/
theorem expand_ctx_independent (input : MacroInput) (c₁ c₂ : String) :
    expand input c₁ = expand input c₂
    ∧ (expand input c₁).map renderTokens = (expand input c₂).map renderTokens :=
  ⟨rfl, rfl⟩

/-- C10: a record whose body is positional with zero fields does not fail:
the generator returns the single conversion produced by the multi-field
positional emitter `tuple_from`, taking the empty tuple and constructing the
type with no arguments. -/
theorem empty_positional_record_ok (name : Ident) (ctx : String) :
    expand ⟨name, Body.Struct (VariantData.Tuple [])⟩ ctx
      = .ok [tuple_from name []]
    ∧ tuple_from name [] = GenImpl.tupleFrom name []
    ∧ srcTy (GenImpl.tupleFrom name []) = FromTy.tupleTy []
    ∧ applyImpl (GenImpl.tupleFrom name []) (RustValue.tuple [])
        = some (RustValue.tupleStruct name []) :=
  ⟨rfl, rfl, rfl, rfl⟩

/-- C3 counterexample: classifying a record body with zero fields, or a union
body with zero variants, does not fail — at the concrete inputs `Foo` (empty
positional record), `Baz` (empty named record) and `Bar` (empty union) the
generator succeeds, so the claim that it fails with `UnsupportedShape` is
false. -/
theorem empty_bodies_no_error_cex :
    isErr (expand ⟨"Foo", Body.Struct (VariantData.Tuple [])⟩ "") = false
    ∧ expand ⟨"Foo", Body.Struct (VariantData.Tuple [])⟩ ""
        = .ok [GenImpl.tupleFrom "Foo" []]
    ∧ isErr (expand ⟨"Baz", Body.Struct (VariantData.Struct [])⟩ "") = false
    ∧ expand ⟨"Baz", Body.Struct (VariantData.Struct [])⟩ ""
        = .ok [GenImpl.structFrom "Baz" [] []]
    ∧ isErr (expand ⟨"Bar", Body.Enum []⟩ "") = false
    ∧ expand ⟨"Bar", Body.Enum []⟩ "" = .ok [] :=
  ⟨rfl, rfl, rfl, rfl, rfl, rfl⟩

/-- C3 amended: classifying a record body with zero fields or a union body
with zero variants succeeds rather than failing — the zero-field positional
record yields the tuple conversion from the empty tuple, the zero-field named
record yields the named-group conversion from the empty tuple, and the
zero-variant union yields no conversions. -/
theorem empty_bodies_succeed (name : Ident) (ctx : String) :
    expand ⟨name, Body.Struct (VariantData.Tuple [])⟩ ctx
      = .ok [GenImpl.tupleFrom name []]
    ∧ expand ⟨name, Body.Struct (VariantData.Struct [])⟩ ctx
      = .ok [GenImpl.structFrom name [] []]
    ∧ expand ⟨name, Body.Enum []⟩ ctx = .ok [] :=
  ⟨rfl, rfl, rfl⟩

/-- C4 counterexample: on the unit-body type `MyAlias` the generator does
abort with a fatal error and no partial result, but the diagnostic is the
fixed panic message, which does not name the offending type — so the claim
that the diagnostic names the offending type is false. -/
theorem unit_body_diag_cex :
    expand ⟨"MyAlias", Body.Struct VariantData.Unit⟩ ""
      = .error "Only tuple structs and enums can derive From"
    ∧ mentionsName "Only tuple structs and enums can derive From" "MyAlias"
        = false :=
  ⟨rfl, by decide⟩

/-- C4 amended: for every type definition whose body is neither a record nor
a union (the unit body), the generator raises a fatal, non-recoverable
condition that aborts processing and returns no partial result; its
diagnostic is the fixed message `Only tuple structs and enums can derive
From`, independent of the offending type. -/
theorem unit_body_fatal (name : Ident) (ctx : String) :
    expand ⟨name, Body.Struct VariantData.Unit⟩ ctx = .error derivePanicMsg
    ∧ isErr (expand ⟨name, Body.Struct VariantData.Unit⟩ ctx) = true :=
  ⟨rfl, rfl⟩

/-- C6: for a record with more than one positional field of types
`T0 … Tn-1`, the emitted conversion takes the ordered tuple of exactly those
`n` types in declaration order, and applied to a tuple value it assigns tuple
element `i` to positional field `i` for all `i`, with no reordering. -/
theorem tuple_from_positional_mapping (name : Ident) (fields : List Field)
    (ctx : String) (hlen : 1 < fields.length) :
    expand ⟨name, Body.Struct (VariantData.Tuple fields)⟩ ctx
      = .ok [GenImpl.tupleFrom name (fields.map Field.ty)]
    ∧ srcTy (GenImpl.tupleFrom name (fields.map Field.ty))
      = FromTy.tupleTy (fields.map Field.ty)
    ∧ ∀ es : List RustValue, es.length = fields.length →
        applyImpl (GenImpl.tupleFrom name (fields.map Field.ty))
            (RustValue.tuple es)
          = some (RustValue.tupleStruct name es) := by
  obtain ⟨a, b, rest, rfl⟩ : ∃ a b rest, fields = a :: b :: rest := by
    rcases fields with _ | ⟨a, _ | ⟨b, rest⟩⟩
    · exact absurd hlen (by simp)
    · exact absurd hlen (by simp)
    · exact ⟨a, b, rest, rfl⟩
  refine ⟨rfl, rfl, ?_⟩
  intro es hes
  have h : applyImpl (GenImpl.tupleFrom name ((a :: b :: rest).map Field.ty))
      (RustValue.tuple es)
      = if es.length = ((a :: b :: rest).map Field.ty).length
        then some (RustValue.tupleStruct name es) else none := rfl
  rw [h, List.length_map, if_pos hes]

/-- C6 witness: the positional group of arity 3 with types `(A, B, C)`
receives a conversion from the tuple type `(A, B, C)` that keeps the three
elements in order. -/
theorem tuple_from_positional_mapping_witness :
    1 < ([⟨none, "A"⟩, ⟨none, "B"⟩, ⟨none, "C"⟩] : List Field).length
    ∧ expand ⟨"T", Body.Struct (VariantData.Tuple
          [⟨none, "A"⟩, ⟨none, "B"⟩, ⟨none, "C"⟩])⟩ ""
        = .ok [GenImpl.tupleFrom "T" ["A", "B", "C"]]
    ∧ applyImpl (GenImpl.tupleFrom "T" ["A", "B", "C"])
        (RustValue.tuple
          [RustValue.base "A" 1, RustValue.base "B" 2, RustValue.base "C" 3])
        = some (RustValue.tupleStruct "T"
            [RustValue.base "A" 1, RustValue.base "B" 2, RustValue.base "C" 3]) := by
  refine ⟨by decide, ?_, ?_⟩
  · exact (tuple_from_positional_mapping "T"
      [⟨none, "A"⟩, ⟨none, "B"⟩, ⟨none, "C"⟩] "" (by decide)).1
  · exact (tuple_from_positional_mapping "T"
      [⟨none, "A"⟩, ⟨none, "B"⟩, ⟨none, "C"⟩] "" (by decide)).2.2
      [RustValue.base "A" 1, RustValue.base "B" 2, RustValue.base "C" 3] rfl

/-- C5: for a record with more than one named field, the emitted conversion
takes the ordered tuple of the fields' declared types in declaration order
and assigns tuple element `i` to the field at declaration position `i`; the
mapping is purely positional (the name list is only zipped positionally with
the elements, so field names play no role in which value lands where). -/
theorem struct_from_positional_mapping (name : Ident) (fields : List Field)
    (names : List Ident) (ctx : String)
    (hlen : 1 < fields.length)
    (hnames : unwrapIdents fields = some names) :
    expand ⟨name, Body.Struct (VariantData.Struct fields)⟩ ctx
      = .ok [GenImpl.structFrom name (fields.map Field.ty) names]
    ∧ srcTy (GenImpl.structFrom name (fields.map Field.ty) names)
      = FromTy.tupleTy (fields.map Field.ty)
    ∧ ∀ es : List RustValue, es.length = fields.length →
        applyImpl (GenImpl.structFrom name (fields.map Field.ty) names)
            (RustValue.tuple es)
          = some (RustValue.namedStruct name (names.zip es))
        ∧ ∀ i, i < fields.length →
            ∃ nm v, names[i]? = some nm ∧ es[i]? = some v ∧
              (names.zip es)[i]? = some (nm, v) := by
  have hnlen : names.length = fields.length := unwrapIdents_length hnames
  obtain ⟨a, b, rest, rfl⟩ : ∃ a b rest, fields = a :: b :: rest := by
    rcases fields with _ | ⟨a, _ | ⟨b, rest⟩⟩
    · exact absurd hlen (by simp)
    · exact absurd hlen (by simp)
    · exact ⟨a, b, rest, rfl⟩
  refine ⟨?_, rfl, ?_⟩
  · show (struct_from name (a :: b :: rest)).map (fun i => [i])
      = .ok [GenImpl.structFrom name ((a :: b :: rest).map Field.ty) names]
    unfold struct_from
    rw [hnames]
    rfl
  · intro es hes
    constructor
    · have h : applyImpl
          (GenImpl.structFrom name ((a :: b :: rest).map Field.ty) names)
          (RustValue.tuple es)
          = if es.length = ((a :: b :: rest).map Field.ty).length
            then some (RustValue.namedStruct name (names.zip es)) else none := rfl
      rw [h, List.length_map, if_pos hes]
    · intro i hi
      have h1 : i < names.length := by rw [hnlen]; exact hi
      have h2 : i < es.length := by rw [hes]; exact hi
      refine ⟨names.get ⟨i, h1⟩, es.get ⟨i, h2⟩, ?_, ?_, ?_⟩
      · exact List.getElem?_eq_getElem h1
      · exact List.getElem?_eq_getElem h2
      · rw [List.getElem?_zip_eq_some]
        exact ⟨List.getElem?_eq_getElem h1, List.getElem?_eq_getElem h2⟩

/-- C5 witness: the named group with fields `x: A, y: B` receives a
conversion from the tuple type `(A, B)` that assigns the first tuple element
to `x` (declared first) and the second to `y` (declared second). -/
theorem struct_from_positional_mapping_witness :
    1 < ([⟨some "x", "A"⟩, ⟨some "y", "B"⟩] : List Field).length
    ∧ unwrapIdents [⟨some "x", "A"⟩, ⟨some "y", "B"⟩] = some ["x", "y"]
    ∧ expand ⟨"S", Body.Struct (VariantData.Struct
          [⟨some "x", "A"⟩, ⟨some "y", "B"⟩])⟩ ""
        = .ok [GenImpl.structFrom "S" ["A", "B"] ["x", "y"]]
    ∧ applyImpl (GenImpl.structFrom "S" ["A", "B"] ["x", "y"])
        (RustValue.tuple [RustValue.base "A" 1, RustValue.base "B" 2])
        = some (RustValue.namedStruct "S"
            [("x", RustValue.base "A" 1), ("y", RustValue.base "B" 2)]) := by
  refine ⟨by decide, rfl, ?_, ?_⟩
  · exact (struct_from_positional_mapping "S"
      [⟨some "x", "A"⟩, ⟨some "y", "B"⟩] ["x", "y"] "" (by decide) rfl).1
  · exact ((struct_from_positional_mapping "S"
      [⟨some "x", "A"⟩, ⟨some "y", "B"⟩] ["x", "y"] "" (by decide) rfl).2.2
      [RustValue.base "A" 1, RustValue.base "B" 2] rfl).1

/-- C1: over the single-field positional variants of a union, a variant whose
field type occurs exactly once among them gets a conversion from that field
type into the union, constructing precisely that variant by wrapping the
value; when a field type occurs more than once, no conversion is emitted for
any variant carrying that type. -/
theorem enum_from_unambiguous (e : Ident) (vs : List Variant) (ctx : String)
    (out : List GenImpl)
    (hout : expand ⟨e, Body.Enum vs⟩ ctx = .ok out) :
    (∀ p ∈ enumCandidates vs,
        ((enumCandidates vs).map Prod.snd).count p.2 = 1 →
          GenImpl.enumVariantFrom e p.2 p.1 ∈ out
          ∧ srcTy (GenImpl.enumVariantFrom e p.2 p.1) = FromTy.single p.2
          ∧ ∀ v, applyImpl (GenImpl.enumVariantFrom e p.2 p.1) v
              = some (RustValue.enumVal e p.1 [v]))
    ∧ ∀ ty, 1 < ((enumCandidates vs).map Prod.snd).count ty →
        ∀ ident, GenImpl.enumVariantFrom e ty ident ∉ out := by
  have ho : out = enum_from e vs := (Except.ok.inj hout).symm
  subst ho
  constructor
  · intro p hp hc
    exact ⟨mem_enum_from.mpr ⟨p, hp, hc, rfl⟩, rfl, fun _ => rfl⟩
  · intro ty hty ident hmem
    rcases mem_enum_from.mp hmem with ⟨q, _, hqc, heq⟩
    injection heq with h1 h2 h3
    rw [h2] at hty
    omega

/-- C1 witness: the union `V1(A) | V2(B) | V3(A)` gets exactly the conversion
from `B` producing `V2`; neither `V1` nor `V3` receives one, since `A` occurs
twice. -/
theorem enum_from_unambiguous_witness :
    expand ⟨"E", Body.Enum
        [⟨"V1", VariantData.Tuple [⟨none, "A"⟩]⟩,
         ⟨"V2", VariantData.Tuple [⟨none, "B"⟩]⟩,
         ⟨"V3", VariantData.Tuple [⟨none, "A"⟩]⟩]⟩ ""
      = .ok [GenImpl.enumVariantFrom "E" "B" "V2"]
    ∧ GenImpl.enumVariantFrom "E" "B" "V2" ∈ [GenImpl.enumVariantFrom "E" "B" "V2"]
    ∧ GenImpl.enumVariantFrom "E" "A" "V1" ∉ [GenImpl.enumVariantFrom "E" "B" "V2"]
    ∧ GenImpl.enumVariantFrom "E" "A" "V3" ∉ [GenImpl.enumVariantFrom "E" "B" "V2"] := by
  have h := enum_from_unambiguous "E"
    [⟨"V1", VariantData.Tuple [⟨none, "A"⟩]⟩,
     ⟨"V2", VariantData.Tuple [⟨none, "B"⟩]⟩,
     ⟨"V3", VariantData.Tuple [⟨none, "A"⟩]⟩] ""
    [GenImpl.enumVariantFrom "E" "B" "V2"] rfl
  refine ⟨rfl, ?_, ?_, ?_⟩
  · exact (h.1 ("V2", "B") (by decide) (by decide)).1
  · exact h.2 "A" (by decide) "V1"
  · exact h.2 "A" (by decide) "V3"

/-- C2: every conversion emitted for a union comes from a variant whose
payload is positional with exactly one field, constructing that variant; a
variant with no data, several positional fields, or named fields never
receives a conversion (variant names being distinct, as Rust guarantees). -/
theorem enum_from_shape_filter (e : Ident) (vs : List Variant) (ctx : String)
    (out : List GenImpl)
    (hout : expand ⟨e, Body.Enum vs⟩ ctx = .ok out)
    (hnodup : (vs.map Variant.ident).Nodup) :
    (∀ impl ∈ out, ∃ v ∈ vs, ∃ f, v.data = VariantData.Tuple [f]
        ∧ impl = GenImpl.enumVariantFrom e f.ty v.ident)
    ∧ ∀ v ∈ vs, (∀ f, v.data ≠ VariantData.Tuple [f]) →
        ∀ ty, GenImpl.enumVariantFrom e ty v.ident ∉ out := by
  have ho : out = enum_from e vs := (Except.ok.inj hout).symm
  subst ho
  have h1 : ∀ impl ∈ enum_from e vs, ∃ v ∈ vs, ∃ f,
      v.data = VariantData.Tuple [f]
      ∧ impl = GenImpl.enumVariantFrom e f.ty v.ident := by
    intro impl hmem
    rcases mem_enum_from.mp hmem with ⟨p, hp, _, rfl⟩
    rcases mem_enumCandidates.mp hp with ⟨v, hv, f, hf, rfl⟩
    exact ⟨v, hv, f, hf, rfl⟩
  refine ⟨h1, ?_⟩
  intro v hv hshape ty hmem
  rcases h1 _ hmem with ⟨w, hw, f, hfw, heq⟩
  injection heq with h1' h2' h3'
  have hvw : v = w := List.inj_on_of_nodup_map hnodup hv hw h3'
  rw [← hvw] at hfw
  exact hshape f hfw

/-- C2 witness: in the union `V1 | V2(A)` with `V1` carrying no data, the
conversion from `A` producing `V2` is emitted and `V1` receives none. -/
theorem enum_from_shape_filter_witness :
    expand ⟨"E", Body.Enum
        [⟨"V1", VariantData.Unit⟩,
         ⟨"V2", VariantData.Tuple [⟨none, "A"⟩]⟩]⟩ ""
      = .ok [GenImpl.enumVariantFrom "E" "A" "V2"]
    ∧ (["V1", "V2"] : List Ident).Nodup
    ∧ GenImpl.enumVariantFrom "E" "A" "V1" ∉ [GenImpl.enumVariantFrom "E" "A" "V2"] := by
  refine ⟨rfl, by decide, ?_⟩
  exact (enum_from_shape_filter "E"
      [⟨"V1", VariantData.Unit⟩, ⟨"V2", VariantData.Tuple [⟨none, "A"⟩]⟩] ""
      [GenImpl.enumVariantFrom "E" "A" "V2"] rfl (by decide)).2
    ⟨"V1", VariantData.Unit⟩ (by simp)
    (fun f hh => VariantData.noConfusion hh) "A"

/-- C8: for a union none of whose variants is a single-field positional
variant, the resolver succeeds with no conversions and the rendered output is
the empty text block — a normal outcome, not an error. -/
theorem enum_from_empty_output (e : Ident) (vs : List Variant) (ctx : String)
    (h : ∀ v ∈ vs, ∀ f, v.data ≠ VariantData.Tuple [f]) :
    expand ⟨e, Body.Enum vs⟩ ctx = .ok []
    ∧ (expand ⟨e, Body.Enum vs⟩ ctx).map renderTokens = .ok "" := by
  have hcands : enumCandidates vs = [] := by
    unfold enumCandidates
    rw [List.filterMap_eq_nil_iff]
    intro v hv
    exact candOfVariant_eq_none.mpr (h v hv)
  have henum : enum_from e vs = [] := by
    simp only [enum_from]
    rw [hcands]
    rfl
  constructor
  · show Except.ok (enum_from e vs) = Except.ok ([] : List GenImpl)
    rw [henum]
  · show Except.ok (renderTokens (enum_from e vs)) = Except.ok ""
    rw [henum]
    rfl

/-- C8 witness: a union with a no-data variant, a two-field positional
variant and a named-field variant yields the empty output block. -/
theorem enum_from_empty_output_witness :
    expand ⟨"E", Body.Enum
        [⟨"V1", VariantData.Unit⟩,
         ⟨"V2", VariantData.Tuple [⟨none, "A"⟩, ⟨none, "B"⟩]⟩,
         ⟨"V3", VariantData.Struct [⟨some "x", "C"⟩]⟩]⟩ "" = .ok []
    ∧ (expand ⟨"E", Body.Enum
        [⟨"V1", VariantData.Unit⟩,
         ⟨"V2", VariantData.Tuple [⟨none, "A"⟩, ⟨none, "B"⟩]⟩,
         ⟨"V3", VariantData.Struct [⟨some "x", "C"⟩]⟩]⟩ "").map renderTokens
      = .ok "" := by
  exact enum_from_empty_output "E"
    [⟨"V1", VariantData.Unit⟩,
     ⟨"V2", VariantData.Tuple [⟨none, "A"⟩, ⟨none, "B"⟩]⟩,
     ⟨"V3", VariantData.Struct [⟨some "x", "C"⟩]⟩] ""
    (by
      intro v hv f
      simp only [List.mem_cons, List.not_mem_nil, or_false] at hv
      rcases hv with rfl | rfl | rfl <;> simp)

end DeriveFrom
